import Mathlib

/-!
Shallow embedding of the websocket fan-out hub of the OneBackend repository
(Go package `websocket`, file modelled here as `hub.go`), together with the
REST-handler entry points that submit broadcasts.

Handles (Go `*Client` pointers) are modelled as natural numbers allocated by a
counter `nextH`; the per-handle mutable fields (`ID`, `ChatRooms`, the `Send`
channel buffer and its closed flag) are functions of the handle.  The hub's
`clients` table and `chatRooms` registry are modelled as partial maps.

Go panics (`close` on a closed channel, send on a closed channel) are captured
by separate decidable predicates (`unregPanics`, `bcastPanics`); a panicking
step kills the process, so reachability only follows non-panicking steps, and
the value of the total transition functions on panicking inputs is never used.
-/

namespace OnechatWS

/-- Pointwise update of a function on `Nat`. -/
def upd {α : Type} (f : Nat → α) (k : Nat) (v : α) : Nat → α :=
  fun x => if x = k then v else f x

theorem upd_self {α : Type} (f : Nat → α) (k : Nat) (v : α) : upd f k v k = v := by
  simp [upd]

theorem upd_ne {α : Type} (f : Nat → α) (k : Nat) (v : α) (x : Nat) (hx : x ≠ k) :
    upd f k v x = f x := by
  simp [upd, hx]

/-- The hub's state.  `nextH` is the allocation counter for handles; `cid h`
is the Go field `Client.ID` of handle `h`; `joined h` is `Client.ChatRooms`;
`send h` is the buffered contents of the `Send` channel (front = oldest) and
`closed h` its closed flag; `clients` is the live table `Hub.clients`
(identity → handle) and `rooms` is `Hub.chatRooms` (chat id → member set,
`none` when the key is absent from the Go map). -/
structure HubState where
  nextH : Nat
  cid : Nat → Nat
  joined : Nat → Finset Nat
  send : Nat → List String
  closed : Nat → Bool
  clients : Nat → Option Nat
  rooms : Nat → Option (Finset Nat)

/-- The state of a freshly constructed hub (`NewHub`): empty live table and
empty room registry, no handles allocated. -/
def initState : HubState :=
  { nextH := 0
    cid := fun _ => 0
    joined := fun _ => ∅
    send := fun _ => []
    closed := fun _ => false
    clients := fun _ => none
    rooms := fun _ => none }

/-- `Hub.Run`, `case client := <-h.register`: `h.clients[client.ID] = client`.
Silently overwrites any existing entry for the same identity; rooms are not
touched. -/
def register (h : Nat) (s : HubState) : HubState :=
  { s with clients := upd s.clients (s.cid h) (some h) }

/-- `WebSocketHandler.HandleWebSocket`: constructs a fresh `ws.Client`
(`ID: userID`, empty `ChatRooms`, empty `Send` channel of capacity 256) and
submits it on the hub's register channel. -/
def connect (uid : Nat) (s : HubState) : HubState :=
  register s.nextH
    { s with
      nextH := s.nextH + 1
      cid := upd s.cid s.nextH uid
      joined := upd s.joined s.nextH ∅
      send := upd s.send s.nextH []
      closed := upd s.closed s.nextH false }

/-- `delete(room, client); if len(room) == 0 { delete(h.chatRooms, chatID) }`. -/
def eraseRoom (r : Finset Nat) (h : Nat) : Option (Finset Nat) :=
  if r.erase h = ∅ then none else some (r.erase h)

/-- `Hub.JoinChatRoom`: creates the room map if absent, inserts the client,
and records the chat id in the client's `ChatRooms` set. -/
def joinChatRoom (h : Nat) (c : Nat) (s : HubState) : HubState :=
  { s with
    rooms := upd s.rooms c (some (insert h ((s.rooms c).getD ∅)))
    joined := upd s.joined h (insert c (s.joined h)) }

/-- `Hub.LeaveChatRoom`: if the room exists, removes the client and deletes
the room when it becomes empty; unconditionally removes the chat id from the
client's `ChatRooms` set. -/
def leaveChatRoom (h : Nat) (c : Nat) (s : HubState) : HubState :=
  { s with
    rooms := upd s.rooms c
      (match s.rooms c with
       | some r => eraseRoom r h
       | none => none)
    joined := upd s.joined h ((s.joined h).erase c) }

/-- `Hub.Run`, `case client := <-h.unregister`: guarded by the presence of the
key `client.ID` in the live table; it would call `close(client.Send)`, which
in Go panics when the channel is already closed. -/
def unregPanics (h : Nat) (s : HubState) : Bool :=
  (s.clients (s.cid h)).isSome && s.closed h

/-- `Hub.Run`, `case client := <-h.unregister`: if the key `client.ID` is
present, deletes it from the live table, closes the client's `Send` channel,
and removes the client from every room listed in its `ChatRooms` set (deleting
rooms that become empty).  The client's own `ChatRooms` set is NOT cleared.
When the key is absent, the whole step is a no-op. -/
def unregRun (h : Nat) (s : HubState) : HubState :=
  match s.clients (s.cid h) with
  | none => s
  | some _ =>
    { s with
      clients := upd s.clients (s.cid h) none
      closed := upd s.closed h true
      rooms := fun c =>
        if c ∈ s.joined h then
          match s.rooms c with
          | some r => eraseRoom r h
          | none => none
        else s.rooms c }

/-- Capacity of a client's `Send` channel: `make(chan []byte, 256)`. -/
def cap : Nat := 256

/-- `BroadcastMessage`: chat id, payload bytes, and the user id excluded from
the broadcast (`0` when the submitting REST handler excludes nobody). -/
structure BMsg where
  chatID : Nat
  message : String
  exclude : Nat

/-- `Hub.Run`, `case message := <-h.broadcast`: a `select` send on a closed
channel panics in Go, so the broadcast step panics as soon as some
non-excluded room member's `Send` channel is closed. -/
def bcastPanics (m : BMsg) (s : HubState) : Bool :=
  match s.rooms m.chatID with
  | none => false
  | some r => decide (∃ g ∈ r, s.cid g ≠ m.exclude ∧ s.closed g = true)

/-- `Hub.Run`, `case message := <-h.broadcast`: for every member of the room
whose `ID` differs from `Exclude`, attempts a non-blocking send; if the buffer
has space the payload is appended, otherwise (`default:`) the member's `Send`
channel is closed and its `ID` is deleted from the live table.  The member is
NOT removed from any room.  Each member is visited once and the effects on
distinct members are independent, so the loop is modelled component-wise over
the pre-state. -/
def bcastRun (m : BMsg) (s : HubState) : HubState :=
  match s.rooms m.chatID with
  | none => s
  | some r =>
    { s with
      send := fun g =>
        if g ∈ r ∧ s.cid g ≠ m.exclude ∧ (s.send g).length < cap
        then s.send g ++ [m.message] else s.send g
      closed := fun g =>
        if g ∈ r ∧ s.cid g ≠ m.exclude ∧ ¬ (s.send g).length < cap
        then true else s.closed g
      clients := fun k =>
        if ∃ g ∈ r, s.cid g = k ∧ s.cid g ≠ m.exclude ∧ ¬ (s.send g).length < cap
        then none else s.clients k }

/-- `Hub.BroadcastToChat` wraps its arguments into a `BroadcastMessage`; the
hub loop consumes the envelopes one at a time in submission order. -/
def broadcastToChat (chatID : Nat) (message : String) (excludeUserID : Nat)
    (s : HubState) : HubState :=
  bcastRun { chatID := chatID, message := message, exclude := excludeUserID } s

/-- `ChatHandler.UpdateMessageStatus`: broadcasts the status update with
excluded identity `0` (`h.hub.BroadcastToChat(message.ChatID, statusUpdate, 0)`). -/
def updateMessageStatusBroadcast (chatID : Nat) (payload : String)
    (s : HubState) : HubState :=
  broadcastToChat chatID payload 0 s

/-- `GroupHandler.UpdateGroup`: broadcasts the group notification with
excluded identity `0` (`h.hub.BroadcastToChat(uint(groupID), updateNotif, 0)`). -/
def groupUpdateBroadcast (groupID : Nat) (payload : String)
    (s : HubState) : HubState :=
  broadcastToChat groupID payload 0 s

/-- One hub operation, as submitted by the surrounding program. -/
inductive Op where
  | conn (uid : Nat)
  | join (h c : Nat)
  | leave (h c : Nat)
  | unreg (h : Nat)
  | bcast (chatID : Nat) (msg : String) (ex : Nat)

/-- Apply one operation (total; meaningful on non-panicking inputs). -/
def stepOp (o : Op) (s : HubState) : HubState :=
  match o with
  | Op.conn uid => connect uid s
  | Op.join h c => joinChatRoom h c s
  | Op.leave h c => leaveChatRoom h c s
  | Op.unreg h => unregRun h s
  | Op.bcast c msg ex => bcastRun { chatID := c, message := msg, exclude := ex } s

/-- Run a trace of operations from a state. -/
def runOps (l : List Op) (s : HubState) : HubState :=
  l.foldl (fun t o => stepOp o t) s

/-- The states the hub can reach.  `join`, `leave` and `unreg` are only ever
invoked by the program on handles that were actually constructed, and a
panicking step kills the process, so reachability follows non-panicking steps
only. -/
inductive Reachable : HubState → Prop where
  | init : Reachable initState
  | stepConnect (s : HubState) (uid : Nat) :
      Reachable s → Reachable (connect uid s)
  | stepJoin (s : HubState) (h c : Nat) :
      Reachable s → h < s.nextH → Reachable (joinChatRoom h c s)
  | stepLeave (s : HubState) (h c : Nat) :
      Reachable s → h < s.nextH → Reachable (leaveChatRoom h c s)
  | stepUnreg (s : HubState) (h : Nat) :
      Reachable s → h < s.nextH → unregPanics h s = false →
      Reachable (unregRun h s)
  | stepBcast (s : HubState) (m : BMsg) :
      Reachable s → bcastPanics m s = false → Reachable (bcastRun m s)

/-! ### Projection lemmas for the transition functions -/

theorem connect_rooms (uid : Nat) (s : HubState) : (connect uid s).rooms = s.rooms := rfl

theorem connect_nextH (uid : Nat) (s : HubState) : (connect uid s).nextH = s.nextH + 1 := rfl

theorem connect_cid (uid : Nat) (s : HubState) :
    (connect uid s).cid = upd s.cid s.nextH uid := rfl

theorem connect_joined (uid : Nat) (s : HubState) :
    (connect uid s).joined = upd s.joined s.nextH ∅ := rfl

theorem connect_closed (uid : Nat) (s : HubState) :
    (connect uid s).closed = upd s.closed s.nextH false := rfl

theorem connect_clients (uid : Nat) (s : HubState) :
    (connect uid s).clients = upd s.clients uid (some s.nextH) := by
  show upd s.clients (upd s.cid s.nextH uid s.nextH) (some s.nextH)
      = upd s.clients uid (some s.nextH)
  rw [upd_self]

theorem bcastRun_rooms (m : BMsg) (s : HubState) : (bcastRun m s).rooms = s.rooms := by
  unfold bcastRun
  cases s.rooms m.chatID <;> rfl

theorem bcastRun_joined (m : BMsg) (s : HubState) : (bcastRun m s).joined = s.joined := by
  unfold bcastRun
  cases s.rooms m.chatID <;> rfl

theorem bcastRun_cid (m : BMsg) (s : HubState) : (bcastRun m s).cid = s.cid := by
  unfold bcastRun
  cases s.rooms m.chatID <;> rfl

theorem bcastRun_nextH (m : BMsg) (s : HubState) : (bcastRun m s).nextH = s.nextH := by
  unfold bcastRun
  cases s.rooms m.chatID <;> rfl

theorem bcastRun_send (m : BMsg) (s : HubState) (r : Finset Nat)
    (hr : s.rooms m.chatID = some r) :
    (bcastRun m s).send = fun g =>
      if g ∈ r ∧ s.cid g ≠ m.exclude ∧ (s.send g).length < cap
      then s.send g ++ [m.message] else s.send g := by
  unfold bcastRun
  rw [hr]

theorem bcastRun_closed (m : BMsg) (s : HubState) (r : Finset Nat)
    (hr : s.rooms m.chatID = some r) :
    (bcastRun m s).closed = fun g =>
      if g ∈ r ∧ s.cid g ≠ m.exclude ∧ ¬ (s.send g).length < cap
      then true else s.closed g := by
  unfold bcastRun
  rw [hr]

theorem bcastRun_clients (m : BMsg) (s : HubState) (r : Finset Nat)
    (hr : s.rooms m.chatID = some r) :
    (bcastRun m s).clients = fun k =>
      if ∃ g ∈ r, s.cid g = k ∧ s.cid g ≠ m.exclude ∧ ¬ (s.send g).length < cap
      then none else s.clients k := by
  unfold bcastRun
  rw [hr]

theorem bcastRun_noRoom (m : BMsg) (s : HubState) (hr : s.rooms m.chatID = none) :
    bcastRun m s = s := by
  unfold bcastRun
  rw [hr]

theorem unregRun_noKey (h : Nat) (s : HubState) (hk : s.clients (s.cid h) = none) :
    unregRun h s = s := by
  unfold unregRun
  rw [hk]

theorem unregRun_key (h g : Nat) (s : HubState) (hk : s.clients (s.cid h) = some g) :
    unregRun h s =
      { s with
        clients := upd s.clients (s.cid h) none
        closed := upd s.closed h true
        rooms := fun c =>
          if c ∈ s.joined h then
            match s.rooms c with
            | some r => eraseRoom r h
            | none => none
          else s.rooms c } := by
  unfold unregRun
  rw [hk]

theorem eraseRoom_some (r r' : Finset Nat) (h : Nat) (he : eraseRoom r h = some r') :
    r' = r.erase h ∧ r'.Nonempty := by
  unfold eraseRoom at he
  by_cases hc : r.erase h = ∅
  · simp [hc] at he
  · simp only [hc, if_false] at he
    cases he
    exact ⟨rfl, Finset.nonempty_iff_ne_empty.mpr hc⟩

/-! ### Hub invariants, preserved by every reachable step -/

/-- The registry invariants maintained by the hub control loop:
room members are always previously constructed handles and always carry the
room's chat id in their `ChatRooms` set; rooms are nonempty; the live table
maps an identity only to a constructed handle that carries that identity, whose
`Send` channel is open, and whose `ChatRooms` entries all have matching room
memberships. -/
structure Inv (s : HubState) : Prop where
  roomFresh : ∀ c r g, s.rooms c = some r → g ∈ r → g < s.nextH
  roomJoined : ∀ c r g, s.rooms c = some r → g ∈ r → c ∈ s.joined g
  roomNonempty : ∀ c r, s.rooms c = some r → r.Nonempty
  liveCid : ∀ k g, s.clients k = some g → s.cid g = k
  liveBorn : ∀ k g, s.clients k = some g → g < s.nextH
  liveOpen : ∀ k g, s.clients k = some g → s.closed g = false
  liveJoined : ∀ k g, s.clients k = some g → ∀ c, c ∈ s.joined g →
    ∃ r, s.rooms c = some r ∧ g ∈ r

theorem invInit : Inv initState := by
  constructor <;> intros <;> simp_all [initState]

theorem invConnect (s : HubState) (uid : Nat) (hs : Inv s) : Inv (connect uid s) := by
  have hfresh : ∀ c r g, s.rooms c = some r → g ∈ r → g ≠ s.nextH := by
    intro c r g hr hg
    exact Nat.ne_of_lt (hs.roomFresh c r g hr hg)
  have hlive : ∀ k g, s.clients k = some g → g ≠ s.nextH := by
    intro k g hk
    exact Nat.ne_of_lt (hs.liveBorn k g hk)
  constructor
  · intro c r g hr hg
    rw [connect_rooms] at hr
    rw [connect_nextH]
    exact Nat.lt_succ_of_lt (hs.roomFresh c r g hr hg)
  · intro c r g hr hg
    rw [connect_rooms] at hr
    rw [connect_joined, upd_ne _ _ _ _ (hfresh c r g hr hg)]
    exact hs.roomJoined c r g hr hg
  · intro c r hr
    rw [connect_rooms] at hr
    exact hs.roomNonempty c r hr
  · intro k g hk
    rw [connect_clients] at hk
    rw [connect_cid]
    by_cases hu : k = uid
    · subst hu
      rw [upd_self] at hk
      cases hk
      rw [upd_self]
    · rw [upd_ne _ _ _ _ hu] at hk
      rw [upd_ne _ _ _ _ (hlive k g hk)]
      exact hs.liveCid k g hk
  · intro k g hk
    rw [connect_clients] at hk
    rw [connect_nextH]
    by_cases hu : k = uid
    · subst hu
      rw [upd_self] at hk
      cases hk
      exact Nat.lt_succ_self _
    · rw [upd_ne _ _ _ _ hu] at hk
      exact Nat.lt_succ_of_lt (hs.liveBorn k g hk)
  · intro k g hk
    rw [connect_clients] at hk
    rw [connect_closed]
    by_cases hu : k = uid
    · subst hu
      rw [upd_self] at hk
      cases hk
      rw [upd_self]
    · rw [upd_ne _ _ _ _ hu] at hk
      rw [upd_ne _ _ _ _ (hlive k g hk)]
      exact hs.liveOpen k g hk
  · intro k g hk c hc
    rw [connect_clients] at hk
    rw [connect_joined] at hc
    rw [connect_rooms]
    by_cases hu : k = uid
    · subst hu
      rw [upd_self] at hk
      cases hk
      rw [upd_self] at hc
      exact absurd hc (Finset.not_mem_empty c)
    · rw [upd_ne _ _ _ _ hu] at hk
      rw [upd_ne _ _ _ _ (hlive k g hk)] at hc
      exact hs.liveJoined k g hk c hc

theorem join_rooms (h c : Nat) (s : HubState) :
    (joinChatRoom h c s).rooms
      = upd s.rooms c (some (insert h ((s.rooms c).getD ∅))) := rfl

theorem join_joined (h c : Nat) (s : HubState) :
    (joinChatRoom h c s).joined = upd s.joined h (insert c (s.joined h)) := rfl

theorem leave_rooms (h c : Nat) (s : HubState) :
    (leaveChatRoom h c s).rooms
      = upd s.rooms c
          (match s.rooms c with
           | some r => eraseRoom r h
           | none => none) := rfl

theorem leave_joined (h c : Nat) (s : HubState) :
    (leaveChatRoom h c s).joined = upd s.joined h ((s.joined h).erase c) := rfl

theorem invJoin (s : HubState) (h c : Nat) (hs : Inv s) (hb : h < s.nextH) :
    Inv (joinChatRoom h c s) := by
  constructor
  · intro c' r' g hr' hg
    rw [join_rooms] at hr'
    show g < s.nextH
    by_cases hc : c' = c
    · subst hc
      rw [upd_self] at hr'
      cases hr'
      rcases Finset.mem_insert.mp hg with hgh | hg0
      · exact hgh ▸ hb
      · cases hsr : s.rooms c' with
        | none => rw [hsr] at hg0; exact absurd hg0 (Finset.not_mem_empty g)
        | some r0 => rw [hsr] at hg0; exact hs.roomFresh c' r0 g hsr hg0
    · rw [upd_ne _ _ _ _ hc] at hr'
      exact hs.roomFresh c' r' g hr' hg
  · intro c' r' g hr' hg
    rw [join_rooms] at hr'
    rw [join_joined]
    by_cases hgh : g = h
    · subst hgh
      rw [upd_self]
      by_cases hc : c' = c
      · subst hc; exact Finset.mem_insert_self c' _
      · rw [upd_ne _ _ _ _ hc] at hr'
        exact Finset.mem_insert_of_mem (hs.roomJoined c' r' g hr' hg)
    · rw [upd_ne _ _ _ _ hgh]
      by_cases hc : c' = c
      · subst hc
        rw [upd_self] at hr'
        cases hr'
        rcases Finset.mem_insert.mp hg with hgh' | hg0
        · exact absurd hgh' hgh
        · cases hsr : s.rooms c' with
          | none => rw [hsr] at hg0; exact absurd hg0 (Finset.not_mem_empty g)
          | some r0 => rw [hsr] at hg0; exact hs.roomJoined c' r0 g hsr hg0
      · rw [upd_ne _ _ _ _ hc] at hr'
        exact hs.roomJoined c' r' g hr' hg
  · intro c' r' hr'
    rw [join_rooms] at hr'
    by_cases hc : c' = c
    · subst hc
      rw [upd_self] at hr'
      cases hr'
      exact Finset.insert_nonempty h _
    · rw [upd_ne _ _ _ _ hc] at hr'
      exact hs.roomNonempty c' r' hr'
  · intro k g hk
    exact hs.liveCid k g hk
  · intro k g hk
    exact hs.liveBorn k g hk
  · intro k g hk
    exact hs.liveOpen k g hk
  · intro k g hk c' hc'
    rw [join_joined] at hc'
    rw [join_rooms]
    by_cases hgh : g = h
    · subst hgh
      rw [upd_self] at hc'
      rcases Finset.mem_insert.mp hc' with hcc | hc0
      · subst hcc
        refine ⟨insert g ((s.rooms c').getD ∅), ?_, Finset.mem_insert_self g _⟩
        rw [upd_self]
      · obtain ⟨r, hr, hgr⟩ := hs.liveJoined k g hk c' hc0
        by_cases hc : c' = c
        · subst hc
          refine ⟨insert g ((s.rooms c').getD ∅), ?_, Finset.mem_insert_self g _⟩
          rw [upd_self]
        · exact ⟨r, by rw [upd_ne _ _ _ _ hc]; exact hr, hgr⟩
    · rw [upd_ne _ _ _ _ hgh] at hc'
      obtain ⟨r, hr, hgr⟩ := hs.liveJoined k g hk c' hc'
      by_cases hc : c' = c
      · subst hc
        refine ⟨insert h ((s.rooms c').getD ∅), ?_, ?_⟩
        · rw [upd_self]
        · rw [hr]
          exact Finset.mem_insert_of_mem hgr
      · exact ⟨r, by rw [upd_ne _ _ _ _ hc]; exact hr, hgr⟩

theorem invLeave (s : HubState) (h c : Nat) (hs : Inv s) :
    Inv (leaveChatRoom h c s) := by
  constructor
  · intro c' r' g hr' hg
    rw [leave_rooms] at hr'
    show g < s.nextH
    by_cases hc : c' = c
    · subst hc
      rw [upd_self] at hr'
      cases hsr : s.rooms c' with
      | none => rw [hsr] at hr'; cases hr'
      | some r0 =>
        rw [hsr] at hr'
        obtain ⟨he, _⟩ := eraseRoom_some r0 r' h hr'
        subst he
        exact hs.roomFresh c' r0 g hsr (Finset.mem_of_mem_erase hg)
    · rw [upd_ne _ _ _ _ hc] at hr'
      exact hs.roomFresh c' r' g hr' hg
  · intro c' r' g hr' hg
    rw [leave_rooms] at hr'
    rw [leave_joined]
    by_cases hc : c' = c
    · subst hc
      rw [upd_self] at hr'
      cases hsr : s.rooms c' with
      | none => rw [hsr] at hr'; cases hr'
      | some r0 =>
        rw [hsr] at hr'
        obtain ⟨he, _⟩ := eraseRoom_some r0 r' h hr'
        subst he
        have hgh : g ≠ h := Finset.ne_of_mem_erase hg
        rw [upd_ne _ _ _ _ hgh]
        exact hs.roomJoined c' r0 g hsr (Finset.mem_of_mem_erase hg)
    · rw [upd_ne _ _ _ _ hc] at hr'
      have hc0 := hs.roomJoined c' r' g hr' hg
      by_cases hgh : g = h
      · subst hgh
        rw [upd_self]
        exact Finset.mem_erase.mpr ⟨hc, hc0⟩
      · rw [upd_ne _ _ _ _ hgh]
        exact hc0
  · intro c' r' hr'
    rw [leave_rooms] at hr'
    by_cases hc : c' = c
    · subst hc
      rw [upd_self] at hr'
      cases hsr : s.rooms c' with
      | none => rw [hsr] at hr'; cases hr'
      | some r0 =>
        rw [hsr] at hr'
        exact (eraseRoom_some r0 r' h hr').2
    · rw [upd_ne _ _ _ _ hc] at hr'
      exact hs.roomNonempty c' r' hr'
  · intro k g hk
    exact hs.liveCid k g hk
  · intro k g hk
    exact hs.liveBorn k g hk
  · intro k g hk
    exact hs.liveOpen k g hk
  · intro k g hk c' hc'
    rw [leave_joined] at hc'
    rw [leave_rooms]
    have main : c' ∈ s.joined g → g ≠ h ∨ c' ≠ c := by
      intro _
      by_cases hgh : g = h
      · subst hgh
        rw [upd_self] at hc'
        exact Or.inr (Finset.ne_of_mem_erase hc')
      · exact Or.inl hgh
    have hc0 : c' ∈ s.joined g := by
      by_cases hgh : g = h
      · subst hgh
        rw [upd_self] at hc'
        exact Finset.mem_of_mem_erase hc'
      · rw [upd_ne _ _ _ _ hgh] at hc'
        exact hc'
    obtain ⟨r, hr, hgr⟩ := hs.liveJoined k g hk c' hc0
    by_cases hc : c' = c
    · subst hc
      rcases main hc0 with hgh | hcc
      · refine ⟨r.erase h, ?_, Finset.mem_erase.mpr ⟨hgh, hgr⟩⟩
        rw [upd_self, hr]
        unfold eraseRoom
        have hne : ¬ r.erase h = ∅ :=
          Finset.nonempty_iff_ne_empty.mp ⟨g, Finset.mem_erase.mpr ⟨hgh, hgr⟩⟩
        simp [hne]
      · exact absurd rfl hcc
    · refine ⟨r, ?_, hgr⟩
      rw [upd_ne _ _ _ _ hc]
      exact hr

theorem invUnreg (s : HubState) (h : Nat) (hs : Inv s) : Inv (unregRun h s) := by
  cases hk : s.clients (s.cid h) with
  | none => rw [unregRun_noKey h s hk]; exact hs
  | some g0 =>
    rw [unregRun_key h g0 s hk]
    constructor
    · intro c' r' g hr' hg
      show g < s.nextH
      simp only at hr'
      by_cases hcj : c' ∈ s.joined h
      · rw [if_pos hcj] at hr'
        cases hsr : s.rooms c' with
        | none => rw [hsr] at hr'; cases hr'
        | some r0 =>
          rw [hsr] at hr'
          obtain ⟨he, _⟩ := eraseRoom_some r0 r' h hr'
          subst he
          exact hs.roomFresh c' r0 g hsr (Finset.mem_of_mem_erase hg)
      · rw [if_neg hcj] at hr'
        exact hs.roomFresh c' r' g hr' hg
    · intro c' r' g hr' hg
      simp only at hr'
      show c' ∈ s.joined g
      by_cases hcj : c' ∈ s.joined h
      · rw [if_pos hcj] at hr'
        cases hsr : s.rooms c' with
        | none => rw [hsr] at hr'; cases hr'
        | some r0 =>
          rw [hsr] at hr'
          obtain ⟨he, _⟩ := eraseRoom_some r0 r' h hr'
          subst he
          exact hs.roomJoined c' r0 g hsr (Finset.mem_of_mem_erase hg)
      · rw [if_neg hcj] at hr'
        exact hs.roomJoined c' r' g hr' hg
    · intro c' r' hr'
      simp only at hr'
      by_cases hcj : c' ∈ s.joined h
      · rw [if_pos hcj] at hr'
        cases hsr : s.rooms c' with
        | none => rw [hsr] at hr'; cases hr'
        | some r0 =>
          rw [hsr] at hr'
          exact (eraseRoom_some r0 r' h hr').2
      · rw [if_neg hcj] at hr'
        exact hs.roomNonempty c' r' hr'
    · intro k g hkg
      simp only at hkg
      by_cases hkc : k = s.cid h
      · rw [hkc, upd_self] at hkg; cases hkg
      · rw [upd_ne _ _ _ _ hkc] at hkg
        exact hs.liveCid k g hkg
    · intro k g hkg
      simp only at hkg
      by_cases hkc : k = s.cid h
      · rw [hkc, upd_self] at hkg; cases hkg
      · rw [upd_ne _ _ _ _ hkc] at hkg
        exact hs.liveBorn k g hkg
    · intro k g hkg
      simp only at hkg
      by_cases hkc : k = s.cid h
      · rw [hkc, upd_self] at hkg; cases hkg
      · rw [upd_ne _ _ _ _ hkc] at hkg
        have hgh : g ≠ h := by
          intro he
          subst he
          exact hkc (hs.liveCid k g hkg).symm
        show upd s.closed h true g = false
        rw [upd_ne _ _ _ _ hgh]
        exact hs.liveOpen k g hkg
    · intro k g hkg c' hc'
      simp only at hkg hc' ⊢
      by_cases hkc : k = s.cid h
      · rw [hkc, upd_self] at hkg; cases hkg
      · rw [upd_ne _ _ _ _ hkc] at hkg
        have hgh : g ≠ h := by
          intro he
          subst he
          exact hkc (hs.liveCid k g hkg).symm
        obtain ⟨r, hr, hgr⟩ := hs.liveJoined k g hkg c' hc'
        by_cases hcj : c' ∈ s.joined h
        · refine ⟨r.erase h, ?_, Finset.mem_erase.mpr ⟨hgh, hgr⟩⟩
          rw [if_pos hcj, hr]
          unfold eraseRoom
          have hne : ¬ r.erase h = ∅ :=
            Finset.nonempty_iff_ne_empty.mp ⟨g, Finset.mem_erase.mpr ⟨hgh, hgr⟩⟩
          simp [hne]
        · refine ⟨r, ?_, hgr⟩
          rw [if_neg hcj]
          exact hr

theorem invBcast (s : HubState) (m : BMsg) (hs : Inv s) : Inv (bcastRun m s) := by
  cases hsr : s.rooms m.chatID with
  | none => rw [bcastRun_noRoom m s hsr]; exact hs
  | some r =>
    have hrooms := bcastRun_rooms m s
    have hjoined := bcastRun_joined m s
    have hcid := bcastRun_cid m s
    have hnext := bcastRun_nextH m s
    have hclients := bcastRun_clients m s r hsr
    have hclosed := bcastRun_closed m s r hsr
    have entry : ∀ k g, (bcastRun m s).clients k = some g →
        s.clients k = some g ∧
        ¬ ∃ g' ∈ r, s.cid g' = k ∧ s.cid g' ≠ m.exclude ∧ ¬ (s.send g').length < cap := by
      intro k g hkg
      rw [hclients] at hkg
      simp only at hkg
      by_cases hcond : ∃ g' ∈ r, s.cid g' = k ∧ s.cid g' ≠ m.exclude ∧ ¬ (s.send g').length < cap
      · rw [if_pos hcond] at hkg; cases hkg
      · rw [if_neg hcond] at hkg
        exact ⟨hkg, hcond⟩
    constructor
    · intro c' r' g hr' hg
      rw [hrooms] at hr'
      rw [hnext]
      exact hs.roomFresh c' r' g hr' hg
    · intro c' r' g hr' hg
      rw [hrooms] at hr'
      rw [hjoined]
      exact hs.roomJoined c' r' g hr' hg
    · intro c' r' hr'
      rw [hrooms] at hr'
      exact hs.roomNonempty c' r' hr'
    · intro k g hkg
      rw [hcid]
      exact hs.liveCid k g (entry k g hkg).1
    · intro k g hkg
      rw [hnext]
      exact hs.liveBorn k g (entry k g hkg).1
    · intro k g hkg
      obtain ⟨hold, hnc⟩ := entry k g hkg
      rw [hclosed]
      simp only
      have : ¬ (g ∈ r ∧ s.cid g ≠ m.exclude ∧ ¬ (s.send g).length < cap) := by
        intro ⟨h1, h2, h3⟩
        exact hnc ⟨g, h1, hs.liveCid k g hold, h2, h3⟩
      rw [if_neg this]
      exact hs.liveOpen k g hold
    · intro k g hkg c' hc'
      rw [hjoined] at hc'
      rw [hrooms]
      exact hs.liveJoined k g (entry k g hkg).1 c' hc'

/-- Every reachable hub state satisfies the registry invariants. -/
theorem invReach (s : HubState) (hs : Reachable s) : Inv s := by
  induction hs with
  | init => exact invInit
  | stepConnect s uid _ ih => exact invConnect s uid ih
  | stepJoin s h c _ hb ih => exact invJoin s h c ih hb
  | stepLeave s h c _ _ ih => exact invLeave s h c ih
  | stepUnreg s h _ _ _ ih => exact invUnreg s h ih
  | stepBcast s m _ _ ih => exact invBcast s m ih

/-! ### A reachable state with a saturated outbound queue

Two clients (user ids 1 and 2, handles 0 and 1) join room 5; then 256
broadcasts that exclude user 2 fill handle 0's outbound queue to capacity. -/

def msgX : String := "x"

def msgHello : String := "hello"

def sSetup : HubState :=
  runOps [Op.conn 1, Op.conn 2, Op.join 0 5, Op.join 1 5] initState

def fillMsg : BMsg := { chatID := 5, message := msgX, exclude := 2 }

def sFill : Nat → HubState
  | 0 => sSetup
  | n + 1 => bcastRun fillMsg (sFill n)

def sFull : HubState := sFill cap

/-- Characterization of the components of the fill states. -/
structure FillSpec (s : HubState) (n : Nat) : Prop where
  rooms5 : s.rooms 5 = some {1, 0}
  cid0 : s.cid 0 = 1
  cid1 : s.cid 1 = 2
  send0 : s.send 0 = List.replicate n msgX
  send1 : s.send 1 = []
  closed0 : s.closed 0 = false
  closed1 : s.closed 1 = false
  clients1 : s.clients 1 = some 0
  clients2 : s.clients 2 = some 1

theorem fillSpec_zero : FillSpec sSetup 0 := by
  constructor <;> decide

theorem fillSpec_step (s : HubState) (n : Nat) (hn : n < cap) (hs : FillSpec s n) :
    FillSpec (bcastRun fillMsg s) (n + 1) := by
  have hr : s.rooms fillMsg.chatID = some {1, 0} := hs.rooms5
  have hsend := bcastRun_send fillMsg s _ hr
  have hclosed := bcastRun_closed fillMsg s _ hr
  have hclients := bcastRun_clients fillMsg s _ hr
  have hmem0 : (0 : Nat) ∈ ({1, 0} : Finset Nat) := by decide
  have hlen0 : (s.send 0).length = n := by rw [hs.send0, List.length_replicate]
  constructor
  · rw [bcastRun_rooms]; exact hs.rooms5
  · rw [bcastRun_cid]; exact hs.cid0
  · rw [bcastRun_cid]; exact hs.cid1
  · rw [hsend]
    simp only
    have hcond : (0 : Nat) ∈ ({1, 0} : Finset Nat) ∧ s.cid 0 ≠ fillMsg.exclude
        ∧ (s.send 0).length < cap := by
      refine ⟨hmem0, ?_, ?_⟩
      · rw [hs.cid0]; decide
      · rw [hlen0]; exact hn
    have hm : fillMsg.message = msgX := rfl
    rw [if_pos hcond, hs.send0, hm, ← List.replicate_succ']
  · rw [hsend]
    simp only
    have hcond : ¬ ((1 : Nat) ∈ ({1, 0} : Finset Nat) ∧ s.cid 1 ≠ fillMsg.exclude
        ∧ (s.send 1).length < cap) := by
      rintro ⟨_, hne, _⟩
      rw [hs.cid1] at hne
      exact hne rfl
    rw [if_neg hcond]
    exact hs.send1
  · rw [hclosed]
    simp only
    have hcond : ¬ ((0 : Nat) ∈ ({1, 0} : Finset Nat) ∧ s.cid 0 ≠ fillMsg.exclude
        ∧ ¬ (s.send 0).length < cap) := by
      rintro ⟨_, _, hfull⟩
      rw [hlen0] at hfull
      exact hfull hn
    rw [if_neg hcond]
    exact hs.closed0
  · rw [hclosed]
    simp only
    have hcond : ¬ ((1 : Nat) ∈ ({1, 0} : Finset Nat) ∧ s.cid 1 ≠ fillMsg.exclude
        ∧ ¬ (s.send 1).length < cap) := by
      rintro ⟨_, hne, _⟩
      rw [hs.cid1] at hne
      exact hne rfl
    rw [if_neg hcond]
    exact hs.closed1
  · rw [hclients]
    simp only
    have hcond : ¬ ∃ g ∈ ({1, 0} : Finset Nat), s.cid g = 1 ∧ s.cid g ≠ fillMsg.exclude
        ∧ ¬ (s.send g).length < cap := by
      rintro ⟨g, hg, hcid, hne, hfull⟩
      rcases Finset.mem_insert.mp hg with h1 | h0
      · subst h1
        rw [hs.cid1] at hne
        exact hne rfl
      · rw [Finset.mem_singleton] at h0
        subst h0
        rw [hlen0] at hfull
        exact hfull hn
    rw [if_neg hcond]
    exact hs.clients1
  · rw [hclients]
    simp only
    have hcond : ¬ ∃ g ∈ ({1, 0} : Finset Nat), s.cid g = 2 ∧ s.cid g ≠ fillMsg.exclude
        ∧ ¬ (s.send g).length < cap := by
      rintro ⟨g, hg, hcid, hne, hfull⟩
      rcases Finset.mem_insert.mp hg with h1 | h0
      · subst h1
        rw [hs.cid1] at hne
        exact hne rfl
      · rw [Finset.mem_singleton] at h0
        subst h0
        rw [hlen0] at hfull
        exact hfull hn
    rw [if_neg hcond]
    exact hs.clients2

theorem fillSpec_all (n : Nat) (hn : n ≤ cap) : FillSpec (sFill n) n := by
  induction n with
  | zero => exact fillSpec_zero
  | succ k ih =>
    have hk : k < cap := Nat.lt_of_succ_le hn
    exact fillSpec_step (sFill k) k hk (ih (Nat.le_of_lt hk))

theorem fill_noPanic (s : HubState) (n : Nat) (hs : FillSpec s n) :
    bcastPanics fillMsg s = false := by
  unfold bcastPanics
  have h5 : fillMsg.chatID = 5 := rfl
  rw [h5, hs.rooms5]
  simp only [decide_eq_false_iff_not]
  rintro ⟨g, hg, hne, hcl⟩
  rcases Finset.mem_insert.mp hg with h1 | h0
  · subst h1
    rw [hs.closed1] at hcl
    cases hcl
  · rw [Finset.mem_singleton] at h0
    subst h0
    rw [hs.closed0] at hcl
    cases hcl

theorem reach_sSetup : Reachable sSetup := by
  show Reachable (joinChatRoom 1 5 (joinChatRoom 0 5 (connect 2 (connect 1 initState))))
  exact Reachable.stepJoin _ 1 5
    (Reachable.stepJoin _ 0 5
      (Reachable.stepConnect _ 2 (Reachable.stepConnect _ 1 Reachable.init))
      (by decide))
    (by decide)

theorem reach_sFill (n : Nat) (hn : n ≤ cap) : Reachable (sFill n) := by
  induction n with
  | zero => exact reach_sSetup
  | succ k ih =>
    have hk : k ≤ cap := Nat.le_of_succ_le hn
    exact Reachable.stepBcast _ fillMsg (ih hk)
      (fill_noPanic (sFill k) k (fillSpec_all k hk))

theorem reach_sFull : Reachable sFull := reach_sFill cap (Nat.le_refl cap)

/-! ### Shared concrete states for the claims -/

def sA5 : HubState := runOps [Op.conn 1, Op.join 0 5] initState

theorem reach_sA5 : Reachable sA5 := by
  show Reachable (joinChatRoom 0 5 (connect 1 initState))
  exact Reachable.stepJoin _ 0 5 (Reachable.stepConnect _ 1 Reachable.init) (by decide)

theorem sFullSpec : FillSpec sFull cap := fillSpec_all cap (Nat.le_refl cap)

/-! ### Claim C1: backpressure eviction -/

def evictMsg : BMsg := { chatID := 5, message := msgHello, exclude := 0 }

theorem evict_noPanic : bcastPanics evictMsg sFull = false := by
  unfold bcastPanics
  have h5 : evictMsg.chatID = 5 := rfl
  rw [h5, sFullSpec.rooms5]
  simp only [decide_eq_false_iff_not]
  rintro ⟨g, hg, _, hcl⟩
  rcases Finset.mem_insert.mp hg with h1 | h0
  · subst h1
    rw [sFullSpec.closed1] at hcl
    cases hcl
  · rw [Finset.mem_singleton] at h0
    subst h0
    rw [sFullSpec.closed0] at hcl
    cases hcl

/-- C1, counterexample: in the reachable state `sFull` (clients with ids 1 and
2 in room 5, client 1's queue holding 256 payloads), a broadcast to room 5
excluding nobody evicts handle 0 from the live table and closes its queue, yet
handle 0 REMAINS a member of room 5, contradicting the claim that it is
removed from every room's member set. -/
theorem c1_overflow_cex :
    Reachable sFull ∧
    bcastPanics evictMsg sFull = false ∧
    (sFull.send 0).length = cap ∧
    sFull.clients 1 = some 0 ∧
    (bcastRun evictMsg sFull).clients 1 = none ∧
    (bcastRun evictMsg sFull).closed 0 = true ∧
    (bcastRun evictMsg sFull).send 1 = sFull.send 1 ++ [msgHello] ∧
    (∃ r, (bcastRun evictMsg sFull).rooms 5 = some r ∧ 0 ∈ r) := by
  have hspec := sFullSpec
  have hr : sFull.rooms evictMsg.chatID = some {1, 0} := by
    rw [show evictMsg.chatID = 5 from rfl]
    exact hspec.rooms5
  have hlen : (sFull.send 0).length = cap := by
    rw [hspec.send0, List.length_replicate]
  refine ⟨reach_sFull, evict_noPanic, hlen, hspec.clients1, ?_, ?_, ?_, ?_⟩
  · rw [bcastRun_clients evictMsg sFull _ hr]
    simp only
    rw [if_pos]
    exact ⟨0, by decide, hspec.cid0, by rw [hspec.cid0]; decide,
      by rw [hlen]; exact Nat.lt_irrefl cap⟩
  · rw [bcastRun_closed evictMsg sFull _ hr]
    simp only
    rw [if_pos]
    exact ⟨by decide, by rw [hspec.cid0]; decide, by rw [hlen]; exact Nat.lt_irrefl cap⟩
  · rw [bcastRun_send evictMsg sFull _ hr]
    simp only
    rw [if_pos]
    · rfl
    · exact ⟨by decide, by rw [hspec.cid1]; decide,
        by rw [hspec.send1]; exact Nat.pos_of_ne_zero (by decide)⟩
  · refine ⟨{1, 0}, ?_, by decide⟩
    rw [bcastRun_rooms]
    exact hspec.rooms5

/-- C1 (amended): if a broadcast finds a non-excluded subscriber whose
outbound queue is full, the hub does not block: it closes that subscriber's
queue and deletes its identity from the live-connection table, but it does NOT
remove the subscriber from any room's member set (the room registry is left
unchanged); every other non-excluded subscriber with spare queue capacity
still gets the payload enqueued. -/
theorem c1_overflow_eviction (s : HubState) (m : BMsg) (r : Finset Nat) (g g2 : Nat)
    (hp : bcastPanics m s = false)
    (hr : s.rooms m.chatID = some r)
    (hg : g ∈ r) (hgx : s.cid g ≠ m.exclude) (hgfull : ¬ (s.send g).length < cap)
    (hg2 : g2 ∈ r) (hg2x : s.cid g2 ≠ m.exclude) (hg2sp : (s.send g2).length < cap) :
    (bcastRun m s).clients (s.cid g) = none ∧
    (bcastRun m s).closed g = true ∧
    (bcastRun m s).rooms = s.rooms ∧
    (bcastRun m s).rooms m.chatID = some r ∧
    (bcastRun m s).send g2 = s.send g2 ++ [m.message] ∧
    (bcastRun m s).send g = s.send g := by
  refine ⟨?_, ?_, bcastRun_rooms m s, ?_, ?_, ?_⟩
  · rw [bcastRun_clients m s r hr]
    simp only
    rw [if_pos]
    exact ⟨g, hg, rfl, hgx, hgfull⟩
  · rw [bcastRun_closed m s r hr]
    simp only
    rw [if_pos]
    exact ⟨hg, hgx, hgfull⟩
  · rw [bcastRun_rooms]
    exact hr
  · rw [bcastRun_send m s r hr]
    simp only
    rw [if_pos]
    exact ⟨hg2, hg2x, hg2sp⟩
  · rw [bcastRun_send m s r hr]
    simp only
    rw [if_neg]
    rintro ⟨_, _, hlt⟩
    exact hgfull hlt

/-- C1, witness: the amended theorem applied to the concrete saturated state. -/
theorem c1_overflow_eviction_witness :
    (bcastRun evictMsg sFull).clients 1 = none ∧
    (bcastRun evictMsg sFull).closed 0 = true ∧
    (bcastRun evictMsg sFull).rooms 5 = some {1, 0} ∧
    (bcastRun evictMsg sFull).send 1 = sFull.send 1 ++ [msgHello] := by
  have hr5 : sFull.rooms evictMsg.chatID = some {1, 0} := by
    rw [show evictMsg.chatID = 5 from rfl]
    exact sFullSpec.rooms5
  have h := c1_overflow_eviction sFull evictMsg {1, 0} 0 1
    evict_noPanic hr5 (by decide)
    (by rw [sFullSpec.cid0]; decide)
    (by rw [sFullSpec.send0, List.length_replicate]; exact Nat.lt_irrefl cap)
    (by decide)
    (by rw [sFullSpec.cid1]; decide)
    (by rw [sFullSpec.send1]; exact Nat.pos_of_ne_zero (by decide))
  have hc1 : sFull.cid 0 = 1 := sFullSpec.cid0
  refine ⟨by rw [← hc1]; exact h.1, h.2.1, ?_, h.2.2.2.2.1⟩
  rw [h.2.2.1]
  exact sFullSpec.rooms5

/-! ### Claim C2: room-membership / joined-set invariant -/

def sC2 : HubState := runOps [Op.conn 1, Op.join 0 5, Op.unreg 0] initState

/-- C2, counterexample: after Register, JoinRoom(·,5) and Unregister, the
unregistered handle still has 5 in its `ChatRooms` set although room 5 no
longer exists (Unregister does not clear the handle's joined-set), so the
biconditional of the claim fails. -/
theorem c2_unregister_cex :
    Reachable sC2 ∧ 5 ∈ sC2.joined 0 ∧ sC2.rooms 5 = none := by
  refine ⟨?_, by decide, by decide⟩
  show Reachable (unregRun 0 (joinChatRoom 0 5 (connect 1 initState)))
  exact Reachable.stepUnreg _ 0
    (Reachable.stepJoin _ 0 5 (Reachable.stepConnect _ 1 Reachable.init) (by decide))
    (by decide) (by decide)

/-- C2 (amended): in every reachable hub state, membership of a handle in a
room implies the conversation id is in the handle's joined-set; the full
biconditional holds for every handle that is present in the live table.  (The
reverse implication fails for unregistered handles, whose joined-set is not
cleared.) -/
theorem c2_membership_invariant (s : HubState) (hs : Reachable s) (c g : Nat) :
    (∀ r, s.rooms c = some r → g ∈ r → c ∈ s.joined g) ∧
    (∀ k, s.clients k = some g →
      (c ∈ s.joined g ↔ ∃ r, s.rooms c = some r ∧ g ∈ r)) := by
  have hi := invReach s hs
  refine ⟨fun r hr hg => hi.roomJoined c r g hr hg, fun k hk => ?_⟩
  constructor
  · exact hi.liveJoined k g hk c
  · rintro ⟨r, hr, hg⟩
    exact hi.roomJoined c r g hr hg

/-- C2, witness: the invariant applied to a concrete reachable state. -/
theorem c2_membership_invariant_witness : 5 ∈ sSetup.joined 0 :=
  (c2_membership_invariant sSetup reach_sSetup 5 0).1 {1, 0} (by decide) (by decide)

/-! ### Claim C3: duplicate registration -/

def sC3 : HubState := runOps [Op.conn 1, Op.join 0 5, Op.conn 1] initState

theorem reach_sC3 : Reachable sC3 := by
  show Reachable (connect 1 (joinChatRoom 0 5 (connect 1 initState)))
  exact Reachable.stepConnect _ 1
    (Reachable.stepJoin _ 0 5 (Reachable.stepConnect _ 1 Reachable.init) (by decide))

/-- C3, counterexample: Register identity 1 (handle 0), join room 5, Register
identity 1 again (handle 1).  The live table now maps identity 1 to handle 1,
but room 5 still contains the superseded handle 0 — a stale reference, contra
the claim. -/
theorem c3_stale_room_cex :
    Reachable sC3 ∧ sC3.clients 1 = some 1 ∧
    (∃ r, sC3.rooms 5 = some r ∧ 0 ∈ r) ∧
    sC3.clients 1 ≠ some 0 := by
  exact ⟨reach_sC3, by decide, ⟨{0}, by decide, by decide⟩, by decide⟩

/-- C3 (amended): after two sequential Register calls with the same client
identity the live table maps that identity to exactly the second handle (the
table is keyed by identity, so at most one live handle per identity), and
registration leaves the room registry untouched — so rooms that the superseded
handle had joined retain stale references to it.  The hub's per-handle
registry invariants are nevertheless not corrupted. -/
theorem c3_duplicate_register (s : HubState) (uid : Nat) (hs : Reachable s) :
    (connect uid (connect uid s)).clients uid = some (s.nextH + 1) ∧
    (connect uid (connect uid s)).clients uid ≠ some s.nextH ∧
    (connect uid (connect uid s)).rooms = s.rooms ∧
    Inv (connect uid (connect uid s)) := by
  have h1 : (connect uid (connect uid s)).clients uid = some (s.nextH + 1) := by
    rw [connect_clients, upd_self, connect_nextH]
  refine ⟨h1, ?_, rfl, ?_⟩
  · rw [h1]
    intro he
    exact Nat.succ_ne_self s.nextH (Option.some.inj he)
  · exact invConnect _ uid (invConnect s uid (invReach s hs))

/-- C3, witness: the amended theorem applied to the empty hub. -/
theorem c3_duplicate_register_witness :
    (connect 7 (connect 7 initState)).clients 7 = some (initState.nextH + 1) ∧
    (connect 7 (connect 7 initState)).rooms = initState.rooms := by
  have h := c3_duplicate_register initState 7 Reachable.init
  exact ⟨h.1, h.2.2.1⟩

/-! ### Claim C4: unregister removes the handle everywhere; idempotent -/

/-- C4 (confirmed): for a registered handle, Unregister completes without a
panic; afterwards the handle is absent from the live table and from every
room's member set, its outbound queue is closed, and repeating Unregister on
the already-removed handle is a no-op that does not error. -/
theorem c4_unregister (s : HubState) (h : Nat) (hs : Reachable s)
    (hlive : s.clients (s.cid h) = some h) :
    unregPanics h s = false ∧
    (∀ k, (unregRun h s).clients k ≠ some h) ∧
    (∀ c r, (unregRun h s).rooms c = some r → h ∉ r) ∧
    (unregRun h s).closed h = true ∧
    unregRun h (unregRun h s) = unregRun h s ∧
    unregPanics h (unregRun h s) = false := by
  have hi := invReach s hs
  have hopen : s.closed h = false := hi.liveOpen (s.cid h) h hlive
  have hrun := unregRun_key h h s hlive
  have hkeyGone : (unregRun h s).clients (s.cid h) = none := by
    rw [hrun]
    exact upd_self _ _ _
  have hcid : (unregRun h s).cid = s.cid := by rw [hrun]
  refine ⟨?_, ?_, ?_, ?_, ?_, ?_⟩
  · unfold unregPanics
    rw [hlive, hopen]
    rfl
  · intro k
    rw [hrun]
    simp only
    by_cases hk : k = s.cid h
    · subst hk
      rw [upd_self]
      intro he
      cases he
    · rw [upd_ne _ _ _ _ hk]
      intro he
      exact hk (hi.liveCid k h he).symm
  · intro c r hr
    rw [hrun] at hr
    simp only at hr
    by_cases hcj : c ∈ s.joined h
    · rw [if_pos hcj] at hr
      cases hsr : s.rooms c with
      | none => rw [hsr] at hr; cases hr
      | some r0 =>
        rw [hsr] at hr
        obtain ⟨he, _⟩ := eraseRoom_some r0 r h hr
        subst he
        exact Finset.not_mem_erase h r0
    · rw [if_neg hcj] at hr
      intro hg
      exact hcj (hi.roomJoined c r h hr hg)
  · rw [hrun]
    exact upd_self _ _ _
  · have : (unregRun h s).clients ((unregRun h s).cid h) = none := by
      rw [hcid]
      exact hkeyGone
    exact unregRun_noKey h (unregRun h s) this
  · unfold unregPanics
    rw [hcid, hkeyGone]
    rfl

/-- C4, witness: unregistering the single registered client of a concrete
reachable state. -/
theorem c4_unregister_witness :
    (unregRun 0 sA5).closed 0 = true ∧
    (unregRun 0 sA5).clients 1 ≠ some 0 ∧
    unregRun 0 (unregRun 0 sA5) = unregRun 0 sA5 := by
  have h := c4_unregister sA5 0 reach_sA5 (by decide)
  exact ⟨h.2.2.2.1, h.2.1 1, h.2.2.2.2.1⟩

/-! ### Claim C5: broadcast exclusion -/

def sC5 : HubState := runOps [Op.conn 1, Op.join 0 5, Op.conn 2, Op.join 1 5] initState

/-- C5 (confirmed): a broadcast never enqueues its payload onto the queue of a
handle whose identity equals the excluded identity, whatever the state; and in
the concrete scenario Register(A), JoinRoom(A,5), Register(B), JoinRoom(B,5),
Broadcast(5, hello, excluded = A) — A is user 1 (handle 0), B is user 2
(handle 1) — B's queue contains exactly the payload and A's queue is empty. -/
theorem c5_exclusion :
    (∀ (s : HubState) (m : BMsg) (g : Nat), s.cid g = m.exclude →
      (bcastRun m s).send g = s.send g) ∧
    (bcastRun { chatID := 5, message := msgHello, exclude := 1 } sC5).send 1
      = [msgHello] ∧
    (bcastRun { chatID := 5, message := msgHello, exclude := 1 } sC5).send 0 = [] := by
  refine ⟨?_, by decide, by decide⟩
  intro s m g hg
  cases hr : s.rooms m.chatID with
  | none => rw [bcastRun_noRoom m s hr]
  | some r =>
    rw [bcastRun_send m s r hr]
    simp only
    rw [if_neg]
    rintro ⟨_, hne, _⟩
    exact hne hg

/-- C5, witness: the excluded client's queue is untouched in the concrete
scenario state. -/
theorem c5_exclusion_witness :
    (bcastRun { chatID := 5, message := msgHello, exclude := 1 } sC5).send 0
      = sC5.send 0 :=
  c5_exclusion.1 sC5 { chatID := 5, message := msgHello, exclude := 1 } 0 (by decide)

/-! ### Claim C6: per-room ordering -/

/-- C6 (confirmed): two envelopes for the same conversation id, processed by
the hub in order `m1` then `m2`, are appended to the queue of every common
subscriber (a room member excluded by neither envelope, with space for both
payloads) in exactly that order. -/
theorem c6_ordering (s : HubState) (m1 m2 : BMsg) (r : Finset Nat) (g : Nat)
    (hc : m2.chatID = m1.chatID)
    (hr : s.rooms m1.chatID = some r) (hg : g ∈ r)
    (he1 : s.cid g ≠ m1.exclude) (he2 : s.cid g ≠ m2.exclude)
    (hsp : (s.send g).length + 1 < cap)
    (hp1 : bcastPanics m1 s = false)
    (hp2 : bcastPanics m2 (bcastRun m1 s) = false) :
    (bcastRun m2 (bcastRun m1 s)).send g
      = s.send g ++ [m1.message, m2.message] := by
  have hsp1 : (s.send g).length < cap := Nat.lt_of_succ_lt hsp
  have hs1 : (bcastRun m1 s).send g = s.send g ++ [m1.message] := by
    rw [bcastRun_send m1 s r hr]
    simp only
    rw [if_pos ⟨hg, he1, hsp1⟩]
  have hr2 : (bcastRun m1 s).rooms m2.chatID = some r := by
    rw [bcastRun_rooms, hc]
    exact hr
  have hcid2 : (bcastRun m1 s).cid g = s.cid g := by rw [bcastRun_cid]
  rw [bcastRun_send m2 (bcastRun m1 s) r hr2]
  simp only
  rw [if_pos ⟨hg, by rw [hcid2]; exact he2,
    by rw [hs1, List.length_append]; simpa using hsp⟩]
  rw [hs1, List.append_assoc]
  rfl

/-- C6, witness: two broadcasts to room 5 (both excluding user 1) reach the
subscriber with handle 1 in submission order. -/
theorem c6_ordering_witness :
    (bcastRun { chatID := 5, message := msgHello, exclude := 1 }
        (bcastRun { chatID := 5, message := msgX, exclude := 1 } sC5)).send 1
      = sC5.send 1 ++ [msgX, msgHello] :=
  c6_ordering sC5 { chatID := 5, message := msgX, exclude := 1 }
    { chatID := 5, message := msgHello, exclude := 1 } {1, 0} 1
    rfl (by decide) (by decide) (by decide) (by decide) (by decide)
    (by decide) (by decide)

/-! ### Claim C7: room lifecycle -/

/-- C7 (confirmed): rooms exist only while non-empty — every room of a
reachable state is nonempty; a room is created by the first join (with exactly
the joining handle as member); leaving as the last member deletes the room, as
does unregistering the last member; and in the concrete scenario Register(A),
JoinRoom(A,5), Unregister(A), room 5 is absent from the registry. -/
theorem c7_room_lifecycle :
    (∀ s, Reachable s → ∀ c r, s.rooms c = some r → r.Nonempty) ∧
    (∀ s h c, s.rooms c = none → (joinChatRoom h c s).rooms c = some {h}) ∧
    (∀ s h c, s.rooms c = some {h} → (leaveChatRoom h c s).rooms c = none) ∧
    (∀ s h c, s.rooms c = some {h} → c ∈ s.joined h →
      (s.clients (s.cid h)).isSome = true → (unregRun h s).rooms c = none) ∧
    (runOps [Op.conn 1, Op.join 0 5, Op.unreg 0] initState).rooms 5 = none := by
  refine ⟨?_, ?_, ?_, ?_, by decide⟩
  · intro s hs c r hr
    exact (invReach s hs).roomNonempty c r hr
  · intro s h c hr
    rw [join_rooms, upd_self, hr]
    rfl
  · intro s h c hr
    rw [leave_rooms, upd_self, hr]
    simp only
    unfold eraseRoom
    rw [if_pos (Finset.erase_singleton h)]
  · intro s h c hr hcj hlive
    obtain ⟨g0, hg0⟩ := Option.isSome_iff_exists.mp hlive
    rw [unregRun_key h g0 s hg0]
    simp only
    rw [if_pos hcj, hr]
    show eraseRoom {h} h = none
    unfold eraseRoom
    rw [if_pos (Finset.erase_singleton h)]

/-- C7, witness: leaving as last member deletes room 5 of a concrete state. -/
theorem c7_room_lifecycle_witness :
    (leaveChatRoom 0 5 sA5).rooms 5 = none :=
  c7_room_lifecycle.2.2.1 sA5 0 5 (by decide)

/-! ### Claim C8: join idempotent, leave its inverse -/

def sC8 : HubState :=
  runOps [Op.conn 1, Op.join 0 5, Op.join 0 6, Op.leave 0 5] initState

/-- C8 (confirmed): joining a room the handle is already in leaves the hub
state unchanged, and in the concrete scenario Register(A), JoinRoom(A,5),
JoinRoom(A,6), LeaveRoom(A,5): A's joined-set holds exactly room id 6, room 5 is
absent and room 6 contains exactly A. -/
theorem c8_join_idempotent :
    (∀ s, Reachable s → ∀ h c r, s.rooms c = some r → h ∈ r →
      joinChatRoom h c s = s) ∧
    (sC8.joined 0 = {6} ∧ sC8.rooms 5 = none ∧ sC8.rooms 6 = some {0}) := by
  refine ⟨?_, by decide, by decide, by decide⟩
  intro s hs h c r hr hg
  have hcj : c ∈ s.joined h := (invReach s hs).roomJoined c r h hr hg
  have h1 : upd s.rooms c (some (insert h ((s.rooms c).getD ∅))) = s.rooms := by
    funext x
    by_cases hx : x = c
    · subst hx
      rw [upd_self, hr]
      simp only [Option.getD_some]
      rw [Finset.insert_eq_self.mpr hg]
    · rw [upd_ne _ _ _ _ hx]
  have h2 : upd s.joined h (insert c (s.joined h)) = s.joined := by
    funext x
    by_cases hx : x = h
    · subst hx
      rw [upd_self, Finset.insert_eq_self.mpr hcj]
    · rw [upd_ne _ _ _ _ hx]
  unfold joinChatRoom
  rw [h1, h2]

/-- C8, witness: re-joining room 5 in a state already containing the member
leaves the state literally unchanged. -/
theorem c8_join_idempotent_witness : joinChatRoom 0 5 sA5 = sA5 :=
  c8_join_idempotent.1 sA5 reach_sA5 0 5 {0} (by decide) (by decide)

/-! ### Claim C9: inbound frame handling (`Client.ReadPump`) -/

def typeJoinChat : String := "join_chat"

def typeLeaveChat : String := "leave_chat"

def typeTyping : String := "typing"

def typeDelivered : String := "message_delivered"

def typeRead : String := "message_read"

def typeBogus : String := "bogus"

/-- One inbound frame after a successful read: either the JSON was
undecodable, or it decoded to a `WSMessage` with the given type and chat id. -/
inductive Frame where
  | malformed
  | wellFormed (t : String) (chatID : Nat)

/-- Result of one `Client.ReadPump` loop iteration: the hub state afterwards,
whether a log line was emitted for the frame, and whether the connection was
torn down (loop exited). -/
structure FrameResult where
  state : HubState
  logged : Bool
  tornDown : Bool

/-- One iteration of `Client.ReadPump`'s loop body on a successfully read
frame `raw` for the client with handle `h`: undecodable JSON is logged and the
frame skipped (`continue`); a decoded frame dispatches on its `Type` field —
`join_chat` and `leave_chat` issue the registry call, `typing`,
`message_delivered` and `message_read` submit a broadcast of the raw bytes
excluding the sender, and any other type falls through the `switch` silently.
None of these paths breaks the loop, so the connection is not torn down. -/
def handleFrame (h : Nat) (raw : String) (f : Frame) (s : HubState) : FrameResult :=
  match f with
  | Frame.malformed => { state := s, logged := true, tornDown := false }
  | Frame.wellFormed t c =>
    if t = typeJoinChat then
      { state := joinChatRoom h c s, logged := false, tornDown := false }
    else if t = typeLeaveChat then
      { state := leaveChatRoom h c s, logged := false, tornDown := false }
    else if t = typeTyping ∨ t = typeDelivered ∨ t = typeRead then
      { state := bcastRun { chatID := c, message := raw, exclude := s.cid h } s
        logged := false, tornDown := false }
    else
      { state := s, logged := false, tornDown := false }

/-- C9, counterexample: a decodable frame with an unknown type (here bogus) is
discarded without being logged (the Go `switch` has no `default` case), so the
claim that a malformed-or-unknown frame is logged fails; state is unchanged
and the connection survives. -/
theorem c9_unknown_type_cex :
    (handleFrame 0 msgX (Frame.wellFormed typeBogus 3) initState).logged = false ∧
    (handleFrame 0 msgX (Frame.wellFormed typeBogus 3) initState).state = initState ∧
    (handleFrame 0 msgX (Frame.wellFormed typeBogus 3) initState).tornDown = false := by
  refine ⟨?_, ?_, ?_⟩ <;> rfl

/-- C9 (amended): an undecodable inbound frame is logged and discarded; a
decodable frame with a type outside the switch is silently discarded without a
log line; in both cases the hub state is unchanged by the frame and the
connection is not torn down — the reader continues with the next frame. -/
theorem c9_frame_handling :
    (∀ h raw s, handleFrame h raw Frame.malformed s
      = { state := s, logged := true, tornDown := false }) ∧
    (∀ h raw t c s, t ≠ typeJoinChat → t ≠ typeLeaveChat → t ≠ typeTyping →
      t ≠ typeDelivered → t ≠ typeRead →
      handleFrame h raw (Frame.wellFormed t c) s
        = { state := s, logged := false, tornDown := false }) := by
  refine ⟨fun h raw s => rfl, ?_⟩
  intro h raw t c s h1 h2 h3 h4 h5
  have hred : handleFrame h raw (Frame.wellFormed t c) s
      = if t = typeJoinChat then
          { state := joinChatRoom h c s, logged := false, tornDown := false }
        else if t = typeLeaveChat then
          { state := leaveChatRoom h c s, logged := false, tornDown := false }
        else if t = typeTyping ∨ t = typeDelivered ∨ t = typeRead then
          { state := bcastRun { chatID := c, message := raw, exclude := s.cid h } s
            logged := false, tornDown := false }
        else { state := s, logged := false, tornDown := false } := rfl
  rw [hred, if_neg h1, if_neg h2, if_neg ?_]
  rintro (ht | ht | ht)
  · exact h3 ht
  · exact h4 ht
  · exact h5 ht

/-- C9, witness: the amended theorem applied to a concrete unknown-type frame. -/
theorem c9_frame_handling_witness :
    handleFrame 1 msgX (Frame.wellFormed typeBogus 9) initState
      = { state := initState, logged := false, tornDown := false } :=
  c9_frame_handling.2 1 msgX typeBogus 9 initState (by decide) (by decide)
    (by decide) (by decide) (by decide)

/-! ### Claim C10: the zero identity doubles as the no-exclusion marker -/

def sC10 : HubState := runOps [Op.conn 0, Op.conn 3, Op.join 0 7, Op.join 1 7] initState

/-- C10 (confirmed): the hub has no distinct no-exclusion marker — the REST
handlers (message status updates, group notifications) submit broadcasts with
excluded identity 0, and the hub loop compares raw identities; so such a
broadcast enqueues the payload to exactly the room members whose identity is
not 0 (given queue capacity), and a member whose identity equals 0 never
receives it. -/
theorem c10_zero_exclusion :
    (∀ chatID payload s, updateMessageStatusBroadcast chatID payload s
      = bcastRun { chatID := chatID, message := payload, exclude := 0 } s) ∧
    (∀ groupID payload s, groupUpdateBroadcast groupID payload s
      = bcastRun { chatID := groupID, message := payload, exclude := 0 } s) ∧
    (∀ s (m : BMsg) r, m.exclude = 0 → s.rooms m.chatID = some r →
      (∀ g, s.cid g = 0 → (bcastRun m s).send g = s.send g) ∧
      ((∀ g ∈ r, (s.send g).length < cap) →
        ∀ g, ((bcastRun m s).send g = s.send g ++ [m.message]
          ↔ g ∈ r ∧ s.cid g ≠ 0))) := by
  refine ⟨fun _ _ _ => rfl, fun _ _ _ => rfl, ?_⟩
  intro s m r hex hr
  constructor
  · intro g hg
    rw [bcastRun_send m s r hr]
    simp only
    rw [if_neg]
    rintro ⟨_, hne, _⟩
    rw [hex] at hne
    exact hne hg
  · intro hsp g
    constructor
    · intro heq
      by_cases hcond : g ∈ r ∧ s.cid g ≠ m.exclude ∧ (s.send g).length < cap
      · exact ⟨hcond.1, by rw [← hex]; exact hcond.2.1⟩
      · rw [bcastRun_send m s r hr] at heq
        simp only at heq
        rw [if_neg hcond] at heq
        have := congrArg List.length heq
        simp at this
    · rintro ⟨hg, hne⟩
      rw [bcastRun_send m s r hr]
      simp only
      rw [if_pos ⟨hg, by rw [hex]; exact hne, hsp g hg⟩]

/-- C10, witness: in a concrete state where user 0 (handle 0) and user 3
(handle 1) are both members of room 7, a status-update broadcast (excluded
identity 0) reaches user 3 and never reaches user 0. -/
theorem c10_zero_exclusion_witness :
    (bcastRun { chatID := 7, message := msgHello, exclude := 0 } sC10).send 0
      = sC10.send 0 ∧
    (bcastRun { chatID := 7, message := msgHello, exclude := 0 } sC10).send 1
      = sC10.send 1 ++ [msgHello] := by
  have h := c10_zero_exclusion.2.2 sC10
    { chatID := 7, message := msgHello, exclude := 0 } {1, 0} rfl (by decide)
  exact ⟨h.1 0 (by decide), (h.2 (by decide) 1).mpr ⟨by decide, by decide⟩⟩

end OnechatWS
